import Mathlib

/-!
Verification of the ShadowPay SDK's private-payment core against its
specification.  The development shallowly embeds the TypeScript sources:

* `packages/core/src/crypto/utils.ts`       — FieldCodec and the Commitment
  Engine's sender/payment/nullifier derivations,
* `packages/core/src/crypto/commitment.ts`  — `generateCommitment` /
  `verifyCommitment` and their string helpers,
* `packages/core/src/crypto/nullifier.ts`   — `generateNullifier` /
  `verifyNullifier`,
* the client `proof-generator.ts`           — `ensureFieldElement`,
  `pubkeyToFieldElement` and the circuit-input assembly of `generateProof`,
* the ElGamal module (`encryptAmount` / `decryptAmount` /
  `recoverAmountFromPoint`),
* the `ShadowPay.pay()` orchestrator's authorize-then-background-proof flow.

The Poseidon hash and the BN254 curve group are external trusted primitives
(the spec excludes them from the core): Poseidon is a parameter
`H : List Nat → Nat`, and the curve's base group is an arbitrary
`AddCommGroup` with a distinguished generator, with JavaScript bigints
modelled as `Nat`/`Int`.  Fallible TypeScript code (functions that `throw`)
returns `Except String`.
-/

namespace ShadowPay

/-- The BN254 scalar-field modulus, as in `proof-generator.ts` and
`utils.ts` (`BN254_FIELD_MODULUS`). -/
def BN254_FIELD_MODULUS : Nat :=
  21888242871839275222246405745257275088548364400416034343698204186575808495617

/-! ## Byte-level primitives

`bytesToNumBE` models the repeated `result = (result << 8n) | BigInt(b)`
loops (`stringToBigInt`, `addressToFieldElement`, `bytesToNumberBE`): for
bytes `b < 256` the bitwise-or coincides with addition. -/

def bytesToNumBE (bs : List Nat) : Nat :=
  bs.foldl (fun acc b => acc * 256 + b) 0

/-- UTF-8 encoding of a single character, as produced by `TextEncoder`. -/
def utf8BytesChar (c : Char) : List Nat :=
  let n := c.toNat
  if n < 128 then [n]
  else if n < 2048 then [192 + n / 64, 128 + n % 64]
  else if n < 65536 then [224 + n / 4096, 128 + n / 64 % 64, 128 + n % 64]
  else [240 + n / 262144, 128 + n / 4096 % 64, 128 + n / 64 % 64, 128 + n % 64]

/-- UTF-8 encoding of a string (`new TextEncoder().encode(s)`). -/
def utf8Bytes (s : String) : List Nat :=
  (s.data.map utf8BytesChar).flatten

/-! ## Digit characters, parsing and rendering

JavaScript's `BigInt('0x' + s)`, `BigInt(s)` and `n.toString(16)` /
`n.toString()` are modelled by explicit digit-list parsers and renderers.
Character classes are expressed through code points (`'0'`–`'9'` is 48–57,
`'a'`–`'f'` is 97–102, `'A'`–`'F'` is 65–70). -/

def decDigitVal? (c : Char) : Option Nat :=
  if 48 ≤ c.toNat ∧ c.toNat ≤ 57 then some (c.toNat - 48) else none

def hexDigitVal? (c : Char) : Option Nat :=
  if 48 ≤ c.toNat ∧ c.toNat ≤ 57 then some (c.toNat - 48)
  else if 97 ≤ c.toNat ∧ c.toNat ≤ 102 then some (c.toNat - 87)
  else if 65 ≤ c.toNat ∧ c.toNat ≤ 70 then some (c.toNat - 55)
  else none

/-- The character class of the `/[a-fA-F]/` test in `toBigInt`
(`utils.ts`) and `generateProof` (`proof-generator.ts`). -/
def isHexLetterChar (c : Char) : Bool :=
  decide ((97 ≤ c.toNat ∧ c.toNat ≤ 102) ∨ (65 ≤ c.toNat ∧ c.toNat ≤ 70))

def parseAux (digVal? : Char → Option Nat) (base : Nat) :
    List Char → Nat → Option Nat
  | [], acc => some acc
  | c :: cs, acc =>
    match digVal? c with
    | some d => parseAux digVal? base cs (acc * base + d)
    | none => none

/-- Model of `BigInt('0x' ++ ⟨cs⟩)`: `none` models the thrown `SyntaxError`
(also thrown by JavaScript on the empty digit string). -/
def parseHexChars? (cs : List Char) : Option Nat :=
  if cs = [] then none else parseAux hexDigitVal? 16 cs 0

/-- Model of `BigInt(⟨cs⟩)` on a plain (non-prefixed) digit string. -/
def parseDecChars? (cs : List Char) : Option Nat :=
  if cs = [] then none else parseAux decDigitVal? 10 cs 0

/-- Digit character for a value `d < 16`, lowercase (as produced by
JavaScript's `toString(16)` / `toString()`). -/
def digitChar (d : Nat) : Char :=
  if d < 10 then Char.ofNat (48 + d) else Char.ofNat (87 + d)

/-- Total digit value, inverse of `digitChar` on valid digits. -/
def digitVal (c : Char) : Nat :=
  if 97 ≤ c.toNat then c.toNat - 87 else c.toNat - 48

/-- Most-significant-first base-`b` digits of `n`; `fuel > n` guarantees
enough recursion depth (structural recursion keeps it kernel-evaluable). -/
def digitsBase (b : Nat) : Nat → Nat → List Char
  | 0, _ => []
  | fuel + 1, n =>
    if n < b then [digitChar n] else digitsBase b fuel (n / b) ++ [digitChar (n % b)]

/-- JavaScript `n.toString(16)`: minimal lowercase hexadecimal, no prefix,
no padding (`(0n).toString(16) = "0"`). -/
def toHexString (n : Nat) : String :=
  ⟨digitsBase 16 (n + 1) n⟩

/-- JavaScript `n.toString()`: minimal decimal rendering. -/
def decString (n : Nat) : String :=
  ⟨digitsBase 10 (n + 1) n⟩

/-- Numeric value of a digit list (used to invert `digitsBase`). -/
def valBase (b : Nat) (cs : List Char) : Nat :=
  cs.foldl (fun a c => a * b + digitVal c) 0

lemma digitVal_digitChar {d : Nat} (hd : d < 16) : digitVal (digitChar d) = d := by
  interval_cases d <;> decide

lemma digitChar_toNat_lt (d : Nat) (hd : d < 16) :
    (digitChar d).toNat = (if d < 10 then 48 + d else 87 + d) := by
  interval_cases d <;> decide

lemma valBase_append (b : Nat) (cs : List Char) (c : Char) :
    valBase b (cs ++ [c]) = valBase b cs * b + digitVal c := by
  simp [valBase, List.foldl_append]

lemma valBase_digitsBase {b : Nat} (hb : 2 ≤ b) (hb16 : b ≤ 16) :
    ∀ fuel n, n < fuel → valBase b (digitsBase b fuel n) = n := by
  intro fuel
  induction fuel with
  | zero => intro n hn; omega
  | succ f ih =>
    intro n hn
    by_cases h : n < b
    · simp [digitsBase, h, valBase, digitVal_digitChar (lt_of_lt_of_le h hb16)]
    · have hnb : n / b < f := by
        have h1 : n / b < n := Nat.div_lt_self (by omega) (by omega)
        omega
      simp only [digitsBase, if_neg h, valBase_append]
      rw [ih _ hnb]
      rw [digitVal_digitChar (lt_of_lt_of_le (Nat.mod_lt _ (by omega)) hb16)]
      rw [Nat.mul_comm]
      exact Nat.div_add_mod n b

lemma toHexString_injective : Function.Injective toHexString := by
  intro a b h
  have h' : digitsBase 16 (a + 1) a = digitsBase 16 (b + 1) b := by
    have := congrArg String.data h
    simpa [toHexString] using this
  have ha := valBase_digitsBase (b := 16) (by norm_num) (by norm_num) (a + 1) a (Nat.lt_succ_self a)
  have hb := valBase_digitsBase (b := 16) (by norm_num) (by norm_num) (b + 1) b (Nat.lt_succ_self b)
  rw [h'] at ha
  omega

lemma digitsBase_ne_nil {b fuel n : Nat} (h : n < fuel) : digitsBase b fuel n ≠ [] := by
  cases fuel with
  | zero => omega
  | succ f =>
    by_cases hn : n < b <;> simp [digitsBase, hn]

lemma digitsBase_mem {b : Nat} (hb : 2 ≤ b) (hb16 : b ≤ 16) :
    ∀ fuel n c, n < fuel → c ∈ digitsBase b fuel n → ∃ d, d < b ∧ c = digitChar d := by
  intro fuel
  induction fuel with
  | zero => intro n c hn; omega
  | succ f ih =>
    intro n c hn hc
    by_cases h : n < b
    · simp [digitsBase, h] at hc
      exact ⟨n, h, hc⟩
    · simp only [digitsBase, if_neg h, List.mem_append, List.mem_singleton] at hc
      rcases hc with hc | hc
      · have hnb : n / b < f := by
          have h1 : n / b < n := Nat.div_lt_self (by omega) (by omega)
          omega
        exact ih _ c hnb hc
      · exact ⟨n % b, Nat.mod_lt _ (by omega), hc⟩

lemma digitsBase_eq_zero_cons {b : Nat} (hb : 2 ≤ b) (hb16 : b ≤ 16) :
    ∀ fuel n t, n < fuel → digitsBase b fuel n = '0' :: t → n = 0 ∧ t = [] := by
  intro fuel
  induction fuel with
  | zero => intro n t hn; omega
  | succ f ih =>
    intro n t hn h
    by_cases hnb : n < b
    · simp only [digitsBase, if_pos hnb] at h
      have h0 : digitChar n = '0' ∧ t = [] := by
        constructor
        · exact (List.cons.injEq _ _ _ _).mp h |>.1
        · exact ((List.cons.injEq _ _ _ _).mp h |>.2).symm
      refine ⟨?_, h0.2⟩
      have := digitVal_digitChar (lt_of_lt_of_le hnb hb16)
      rw [h0.1] at this
      simpa [digitVal] using this.symm
    · simp only [digitsBase, if_neg hnb] at h
      have hnb' : n / b < f := by
        have h1 : n / b < n := Nat.div_lt_self (by omega) (by omega)
        omega
      obtain ⟨x, xs, hxs⟩ := List.exists_cons_of_ne_nil (digitsBase_ne_nil hnb')
      rw [hxs, List.cons_append] at h
      have hx : x = '0' := ((List.cons.injEq _ _ _ _).mp h).1
      have := ih (n / b) xs hnb' (by rw [hxs, hx])
      have hge : 1 ≤ n / b := (Nat.one_le_div_iff (by omega)).mpr (by omega)
      omega

/-- Every character of a decimal rendering is a decimal digit. -/
lemma decString_chars {n : Nat} :
    ∀ c ∈ (decString n).data, 48 ≤ c.toNat ∧ c.toNat ≤ 57 := by
  intro c hc
  obtain ⟨d, hd, rfl⟩ :=
    digitsBase_mem (b := 10) (by norm_num) (by norm_num) (n + 1) n c (Nat.lt_succ_self n) hc
  rw [digitChar_toNat_lt d (by omega)]
  simp only [if_pos hd]
  omega

/-- Every character of a hexadecimal rendering is a decimal digit or a
lowercase `a`–`f`. -/
lemma toHexString_chars {n : Nat} :
    ∀ c ∈ (toHexString n).data,
      (48 ≤ c.toNat ∧ c.toNat ≤ 57) ∨ (97 ≤ c.toNat ∧ c.toNat ≤ 102) := by
  intro c hc
  obtain ⟨d, hd, rfl⟩ :=
    digitsBase_mem (b := 16) (by norm_num) (by norm_num) (n + 1) n c (Nat.lt_succ_self n) hc
  rw [digitChar_toNat_lt d hd]
  by_cases h10 : d < 10
  · simp only [if_pos h10]; omega
  · simp only [if_neg h10]; omega

lemma parseAux_dec_digits :
    ∀ (cs : List Char) (acc : Nat), (∀ c ∈ cs, 48 ≤ c.toNat ∧ c.toNat ≤ 57) →
      parseAux decDigitVal? 10 cs acc = some (cs.foldl (fun a c => a * 10 + digitVal c) acc) := by
  intro cs
  induction cs with
  | nil => intro acc _; simp [parseAux]
  | cons c cs ih =>
    intro acc h
    have hc := h c (List.mem_cons_self c cs)
    have hdig : decDigitVal? c = some (c.toNat - 48) := by
      simp [decDigitVal?, hc]
    have hval : digitVal c = c.toNat - 48 := by
      simp only [digitVal]
      rw [if_neg (by omega)]
    simp only [parseAux, hdig, List.foldl_cons, hval]
    exact ih _ (fun x hx => h x (List.mem_cons_of_mem c hx))

/-- Parsing inverts decimal rendering. -/
lemma parseDecChars_decString (n : Nat) :
    parseDecChars? (decString n).data = some n := by
  have hne : (decString n).data ≠ [] := digitsBase_ne_nil (Nat.lt_succ_self n)
  have hchars := @decString_chars n
  have hval := valBase_digitsBase (b := 10) (by norm_num) (by norm_num) (n + 1) n (Nat.lt_succ_self n)
  unfold parseDecChars?
  rw [if_neg hne, parseAux_dec_digits _ 0 hchars]
  exact congrArg some hval

/-- The helper `toBigInt` from `utils.ts`: parses `0x`-prefixed strings as hex, strings
containing `[a-fA-F]` as hex, and everything else as decimal; throws on the
empty string.  (JavaScript corners not exercised by the SDK — octal/binary
prefixes, surrounding whitespace, negative signs — are parse errors here.) -/
def toBigInt? (value : String) : Except String Nat :=
  if value.data = [] then .error "Cannot convert empty string to BigInt"
  else if value.data.take 2 = ['0', 'x'] then
    match parseHexChars? (value.data.drop 2) with
    | some v => .ok v
    | none => .error ("Cannot convert " ++ value ++ " to a BigInt")
  else if value.data.any isHexLetterChar then
    match parseHexChars? value.data with
    | some v => .ok v
    | none => .error ("Cannot convert " ++ value ++ " to a BigInt")
  else
    match parseDecChars? value.data with
    | some v => .ok v
    | none => .error ("Cannot convert " ++ value ++ " to a BigInt")

/-- Re-parsing a decimal rendering recovers the value: the `toString()` /
`toBigInt` round trip inside the Commitment Engine is the identity. -/
lemma toBigInt_decString (n : Nat) : toBigInt? (decString n) = .ok n := by
  have hne : (decString n).data ≠ [] := digitsBase_ne_nil (Nat.lt_succ_self n)
  have hchars := @decString_chars n
  unfold toBigInt?
  rw [if_neg hne]
  have hpref : ¬((decString n).data.take 2 = ['0', 'x']) := by
    intro h
    have hx : 'x' ∈ (decString n).data.take 2 := by rw [h]; simp
    have := hchars 'x' (List.mem_of_mem_take hx)
    have hxv : ('x').toNat = 120 := rfl
    omega
  rw [if_neg hpref]
  have hany : (decString n).data.any isHexLetterChar = false := by
    rw [List.any_eq_false]
    intro c hc
    have := hchars c hc
    simp only [isHexLetterChar, decide_eq_true_eq]
    omega
  rw [if_neg (by rw [hany]; exact Bool.false_ne_true)]
  rw [parseDecChars_decString]

/-! ## FieldCodec (`utils.ts`)

`addressToFieldElement` interprets the first (at most) 31 UTF-8 bytes of the
identifier as a big-endian integer and reduces modulo the BN254 scalar-field
modulus; the source returns the decimal rendering of that value. -/

def addressToFieldElementVal (address : String) : Nat :=
  bytesToNumBE ((utf8Bytes address).take 31) % BN254_FIELD_MODULUS

def addressToFieldElement (address : String) : String :=
  decString (addressToFieldElementVal address)

/-! ## Commitment Engine derivations (`utils.ts`)

The Poseidon primitive is a parameter `H : List Nat → Nat`; each derivation
returns the decimal rendering of the hash (`commitment.toString()`), or the
error thrown while converting an input string to a bigint. -/

/-- The argument list `computeSenderCommitment` passes to `hashPoseidon`. -/
def computeSenderCommitmentInputs (walletPubkey secret : String) :
    Except String (List Nat) := do
  let walletBigInt ← toBigInt? (addressToFieldElement walletPubkey)
  let secretBigInt ← toBigInt? secret
  pure [walletBigInt, secretBigInt]

def computeSenderCommitment (H : List Nat → Nat) (walletPubkey secret : String) :
    Except String String :=
  (computeSenderCommitmentInputs walletPubkey secret).map fun l => decString (H l)

/-- The argument list `computePaymentCommitment` passes to `hashPoseidon`. -/
def computePaymentCommitmentInputs (senderCommitment receiverCommitment : String)
    (amount : Nat) (tokenMint salt : String) : Except String (List Nat) := do
  let tokenFieldElement := addressToFieldElement tokenMint
  let senderBigInt ← toBigInt? senderCommitment
  let receiverBigInt ← toBigInt? receiverCommitment
  let tokenBigInt ← toBigInt? tokenFieldElement
  let saltBigInt ← toBigInt? salt
  pure [senderBigInt, receiverBigInt, amount, tokenBigInt, saltBigInt]

def computePaymentCommitment (H : List Nat → Nat)
    (senderCommitment receiverCommitment : String) (amount : Nat)
    (tokenMint salt : String) : Except String String :=
  (computePaymentCommitmentInputs senderCommitment receiverCommitment amount
    tokenMint salt).map fun l => decString (H l)

/-- The argument list `computePaymentNullifier` passes to `hashPoseidon`. -/
def computePaymentNullifierInputs (senderSecret paymentCommitment : String) :
    Except String (List Nat) := do
  let secretBigInt ← toBigInt? senderSecret
  let commitmentBigInt ← toBigInt? paymentCommitment
  pure [secretBigInt, commitmentBigInt]

def computePaymentNullifier (H : List Nat → Nat)
    (senderSecret paymentCommitment : String) : Except String String :=
  (computePaymentNullifierInputs senderSecret paymentCommitment).map
    fun l => decString (H l)

/-! Spec-side formulas of §4.2 (`senderCommitment = H(encode(walletAddress),
secret)` etc.), used to state that the implementation computes exactly these
derivations. -/

def senderCommitmentSpec (H : List Nat → Nat) (walletAddress : String)
    (secret : Nat) : Nat :=
  H [addressToFieldElementVal walletAddress, secret]

def paymentCommitmentSpec (H : List Nat → Nat)
    (senderCommitment receiverCommitment amount : Nat) (token : String)
    (salt : Nat) : Nat :=
  H [senderCommitment, receiverCommitment, amount, addressToFieldElementVal token, salt]

def paymentNullifierSpec (H : List Nat → Nat) (secret paymentCommitment : Nat) : Nat :=
  H [secret, paymentCommitment]

/-! ## Payment commitments (`commitment.ts`) -/

/-- The helper `stringToBigInt` from `commitment.ts`: big-endian packing of all UTF-8
bytes, with no truncation and no reduction. -/
def stringToBigInt (str : String) : Nat :=
  bytesToNumBE (utf8Bytes str)

structure PaymentCommitment where
  value : String
  amount : Nat
  recipient : String
  token : String
  nonce : String
  deriving DecidableEq

/-- The `nonce || generated` default of `generateCommitment`: JavaScript treats the empty
string as falsy, so an absent or empty nonce is replaced by the fresh random
nonce `rnd` (randomness is passed explicitly). -/
def nonceOr (nonce : Option String) (rnd : String) : String :=
  match nonce with
  | some s => if s = "" then rnd else s
  | none => rnd

/-- The argument list `generateCommitment` passes to `hashPoseidon`:
`[BigInt(amount), stringToBigInt(recipient), stringToBigInt(token),
BigInt('0x' + nonceValue)]`. -/
def generateCommitmentInputs (amount : Nat) (recipient token : String)
    (nonceValue : String) : Except String (List Nat) :=
  match parseHexChars? nonceValue.data with
  | some nonceBigInt =>
    .ok [amount, stringToBigInt recipient, stringToBigInt token, nonceBigInt]
  | none => .error ("Cannot convert 0x" ++ nonceValue ++ " to a BigInt")

/-- The function `generateCommitment` from `commitment.ts`: the commitment value is the
bare lowercase hex rendering `commitmentHash.toString(16)`. -/
def generateCommitment (H : List Nat → Nat) (amount : Nat)
    (recipient token : String) (nonce : Option String) (rnd : String) :
    Except String PaymentCommitment :=
  let nonceValue := nonceOr nonce rnd
  (generateCommitmentInputs amount recipient token nonceValue).map fun l =>
    { value := toHexString (H l), amount := amount, recipient := recipient,
      token := token, nonce := nonceValue }

/-- The function `verifyCommitment`: recompute and compare with `===` (exact string
equality). -/
def verifyCommitment (H : List Nat → Nat) (commitment : String) (amount : Nat)
    (recipient token nonce : String) (rnd : String) : Except String Bool :=
  (generateCommitment H amount recipient token (some nonce) rnd).map fun c =>
    decide (c.value = commitment)

/-! ## Nullifiers (`nullifier.ts`) -/

structure Nullifier where
  value : String
  userSecret : String
  commitment : String
  index : Nat
  deriving DecidableEq

/-- The argument list `generateNullifier` passes to `hashPoseidon`. -/
def generateNullifierInputs (privateKey commitment : String)
    (paymentIndex : Nat) : Except String (List Nat) :=
  match parseHexChars? privateKey.data with
  | none => .error ("Cannot convert 0x" ++ privateKey ++ " to a BigInt")
  | some userSecretBigInt =>
    match parseHexChars? commitment.data with
    | none => .error ("Cannot convert 0x" ++ commitment ++ " to a BigInt")
    | some commitmentBigInt => .ok [userSecretBigInt, commitmentBigInt, paymentIndex]

/-- The function `generateNullifier`: value is the bare hex rendering `toString(16)`. -/
def generateNullifier (H : List Nat → Nat) (privateKey commitment : String)
    (paymentIndex : Nat) : Except String Nullifier :=
  (generateNullifierInputs privateKey commitment paymentIndex).map fun l =>
    { value := toHexString (H l), userSecret := privateKey,
      commitment := commitment, index := paymentIndex }

/-- The function `verifyNullifier`: recompute and compare with `===`. -/
def verifyNullifier (H : List Nat → Nat) (nullifier privateKey commitment : String)
    (paymentIndex : Nat) : Except String Bool :=
  (generateNullifier H privateKey commitment paymentIndex).map fun n =>
    decide (n.value = nullifier)

/-! ## Proof-input assembly (`proof-generator.ts`) -/

/-- The function `ensureFieldElement`: a value at or above the field modulus is reduced
modulo `p` (the source only emits a `console.warn`); a negative value throws;
anything else passes through unchanged. -/
def ensureFieldElement (value : Int) (name : String) : Except String Int :=
  if (BN254_FIELD_MODULUS : Int) ≤ value then .ok (value % (BN254_FIELD_MODULUS : Int))
  else if value < 0 then .error (name ++ " cannot be negative: " ++ toString value)
  else .ok value

/-- The `hexToBigInt` helper inside `generateProof`: strip an optional `0x`
prefix and parse as hexadecimal. -/
def hexToBigInt? (hex : String) : Except String Nat :=
  let clean := if hex.data.take 2 = ['0', 'x'] then hex.data.drop 2 else hex.data
  match parseHexChars? clean with
  | some v => .ok v
  | none => .error ("Cannot convert " ++ hex ++ " to a BigInt")

/-- The function `pubkeyToFieldElement`: strip `0x`, keep the first 62 hex characters,
parse as hex, reduce through `ensureFieldElement`, and render as a
zero-padded 64-character `0x` hex string. -/
def pubkeyToFieldElement (pubkey : String) : Except String String := do
  let clean := if pubkey.data.take 2 = ['0', 'x'] then pubkey.data.drop 2 else pubkey.data
  let truncated := clean.take 62
  match parseHexChars? truncated with
  | none => .error ("Cannot convert " ++ pubkey ++ " to a BigInt")
  | some value => do
    let fieldValue ← ensureFieldElement (value : Int) "pubkeyToFieldElement"
    pure ("0x" ++ ⟨List.replicate (64 - (toHexString fieldValue.toNat).data.length) '0'
      ++ (toHexString fieldValue.toNat).data⟩)

/-- The field-element value `pubkeyToFieldElement` encodes (the integer its
output hex string denotes). -/
def pubkeyToFieldElementVal (pubkey : String) : Except String Nat :=
  match parseHexChars?
      ((if pubkey.data.take 2 = ['0', 'x'] then pubkey.data.drop 2 else pubkey.data).take 62) with
  | none => .error ("Cannot convert " ++ pubkey ++ " to a BigInt")
  | some value => (ensureFieldElement (value : Int) "pubkeyToFieldElement").map Int.toNat

structure ProofInputs where
  senderCommitment : String
  senderSecret : String
  receiverCommitment : String
  amount : Int
  tokenMint : String
  salt : String
  merklePath : List String
  pathIndices : List Nat
  encryptedC1 : String
  encryptedC2 : String
  elgamalRandomness : String
  shadowidRoot : String
  maxAmount : Int
  receiverElGamalPubkey : String
  deriving DecidableEq

structure CircuitInputs where
  sender_commitment : String
  sender_secret : String
  receiver_commitment : String
  amount : String
  token_mint : String
  salt : String
  merkle_path : List String
  path_indices : List Nat
  encrypted_amount_c1 : String
  encrypted_amount_c2 : String
  elgamal_randomness : String
  shadowid_root : String
  max_amount : String
  receiver_elgamal_pubkey : String
  deriving DecidableEq

/-- One hex field of the circuit-input record:
`ensureFieldElement(hexToBigInt(x), name).toString()`. -/
def ensureFieldStr (hex name : String) : Except String String := do
  let v ← hexToBigInt? hex
  let f ← ensureFieldElement (v : Int) name
  pure (decString f.toNat)

/-- JavaScript `BigInt(value)` as used by the final field-modulus check. -/
def jsBigInt? (value : String) : Option Nat :=
  if value.data = [] then some 0
  else if value.data.take 2 = ['0', 'x'] then parseHexChars? (value.data.drop 2)
  else parseDecChars? value.data

/-- The final per-entry check of `generateProof`: any non-array circuit input
whose numeric value reaches the field modulus is rejected. -/
def circuitFieldCheck (key value : String) : Except String Unit :=
  match jsBigInt? value with
  | none => .error ("Cannot convert " ++ value ++ " to a BigInt")
  | some v =>
    if BN254_FIELD_MODULUS ≤ v then
      .error ("Circuit input \"" ++ key ++ "\" exceeds BN254 field modulus")
    else .ok ()

/-- The input-assembly stage of `generateProof` (`proof-generator.ts`
lines 63–103): the token-mint special cases, each numeric field pushed
through `ensureFieldElement`, and the final field-modulus loop.  The snarkjs
`fullProve` call that consumes the result is the external proving oracle. -/
def assembleCircuitInputs (inputs : ProofInputs) : Except String CircuitInputs := do
  let tokenMintFieldElement ←
    if inputs.tokenMint = "SOL" ∨ inputs.tokenMint = "0" then pure "0"
    else if inputs.tokenMint.data.take 2 = ['0', 'x']
        ∨ inputs.tokenMint.data.any isHexLetterChar then
      (hexToBigInt? inputs.tokenMint).map decString
    else pure inputs.tokenMint
  let sender_commitment ← ensureFieldStr inputs.senderCommitment "sender_commitment"
  let sender_secret ← ensureFieldStr inputs.senderSecret "sender_secret"
  let receiver_commitment ← ensureFieldStr inputs.receiverCommitment "receiver_commitment"
  let amount ← (ensureFieldElement inputs.amount "amount").map fun v => decString v.toNat
  let salt ← ensureFieldStr inputs.salt "salt"
  let encrypted_amount_c1 ← ensureFieldStr inputs.encryptedC1 "encrypted_amount_c1"
  let encrypted_amount_c2 ← ensureFieldStr inputs.encryptedC2 "encrypted_amount_c2"
  let elgamal_randomness ← ensureFieldStr inputs.elgamalRandomness "elgamal_randomness"
  let shadowid_root ← ensureFieldStr inputs.shadowidRoot "shadowid_root"
  let max_amount ← (ensureFieldElement inputs.maxAmount "max_amount").map fun v => decString v.toNat
  let receiver_elgamal_pubkey ←
    ensureFieldStr inputs.receiverElGamalPubkey "receiver_elgamal_pubkey"
  let _ ← circuitFieldCheck "sender_commitment" sender_commitment
  let _ ← circuitFieldCheck "sender_secret" sender_secret
  let _ ← circuitFieldCheck "receiver_commitment" receiver_commitment
  let _ ← circuitFieldCheck "amount" amount
  let _ ← circuitFieldCheck "token_mint" tokenMintFieldElement
  let _ ← circuitFieldCheck "salt" salt
  let _ ← circuitFieldCheck "encrypted_amount_c1" encrypted_amount_c1
  let _ ← circuitFieldCheck "encrypted_amount_c2" encrypted_amount_c2
  let _ ← circuitFieldCheck "elgamal_randomness" elgamal_randomness
  let _ ← circuitFieldCheck "shadowid_root" shadowid_root
  let _ ← circuitFieldCheck "max_amount" max_amount
  let _ ← circuitFieldCheck "receiver_elgamal_pubkey" receiver_elgamal_pubkey
  pure { sender_commitment, sender_secret, receiver_commitment, amount,
         token_mint := tokenMintFieldElement, salt,
         merkle_path := inputs.merklePath, path_indices := inputs.pathIndices,
         encrypted_amount_c1, encrypted_amount_c2, elgamal_randomness,
         shadowid_root, max_amount, receiver_elgamal_pubkey }

/-! ## ElGamal cipher (ElGamal module, `part_007`)

The BN254 G1 group is an external trusted primitive (spec §1), so the cipher
is embedded over an arbitrary additive commutative group `P` with generator
`G`; `n • x` models `point.multiply(n)`, `0 : P` the distinguished identity
`ProjectivePoint.ZERO`, and the affine hex (de)serialisation of coordinates
(a round trip through `numberToHex`/`hexToNumber`) is elided.  Random 32-byte
draws are explicit `Nat` parameters, reduced `% curve.G1.CURVE.n` exactly as
in the source. -/

/-- The constant `curve.G1.CURVE.n`, the order of BN254's G1: numerically equal to the
scalar-field modulus used elsewhere. -/
def curveN : Nat := BN254_FIELD_MODULUS

/-- The constant `maxAmount` in `recoverAmountFromPoint`: the hard search bound. -/
def MAX_SEARCH_AMOUNT : Nat := 10000000

/-- The message of the `Error` thrown when amount recovery fails. -/
def elgamalRangeErrMsg : String := "Could not decrypt amount (too large or invalid)"

structure EncryptedAmount (P : Type) where
  c1 : P
  c2 : P

/-- The private scalar stored by `generateElGamalKeypair`: a raw 32-byte
draw reduced modulo the group order. -/
def elgamalPrivate (skRaw : Nat) : Nat := skRaw % curveN

/-- The public key derived by `generateElGamalKeypair`: `P = G * privateKey`. -/
def elgamalKeypairPub {P : Type} [AddCommGroup P] (G : P) (skRaw : Nat) : P :=
  elgamalPrivate skRaw • G

/-- The function `encryptAmount`: `C1 = r·G`, `C2 = amount·G + r·pk` with the ephemeral
scalar `r` a fresh 32-byte draw reduced modulo the group order. -/
def encryptAmount {P : Type} [AddCommGroup P] (G : P) (amount : Nat) (pk : P)
    (rRaw : Nat) : EncryptedAmount P :=
  let r := rRaw % curveN
  { c1 := r • G, c2 := amount • G + r • pk }

/-- The linear search of `recoverAmountFromPoint`: candidates `i`, `i+1`, …
for `fuel` steps, returning the first `i` with `i·G = point`. -/
def recoverLoop {P : Type} [AddCommGroup P] [DecidableEq P] (G point : P) :
    Nat → Nat → Except String Nat
  | _, 0 => .error elgamalRangeErrMsg
  | i, fuel + 1 =>
    if i • G = point then .ok i else recoverLoop G point (i + 1) fuel

/-- The function `recoverAmountFromPoint`: identity point means amount 0; otherwise search
amounts `1 .. MAX_SEARCH_AMOUNT` and fail beyond the bound. -/
def recoverAmountFromPoint {P : Type} [AddCommGroup P] [DecidableEq P]
    (G point : P) : Except String Nat :=
  if point = 0 then .ok 0 else recoverLoop G point 1 MAX_SEARCH_AMOUNT

/-- The function `decryptAmount`: `M = C2 − privateKey·C1`, then discrete-log recovery. -/
def decryptAmount {P : Type} [AddCommGroup P] [DecidableEq P] (G : P)
    (encrypted : EncryptedAmount P) (privateKey : Nat) : Except String Nat :=
  recoverAmountFromPoint G (encrypted.c2 - privateKey • encrypted.c1)

/-! ## The `pay()` orchestrator (client `ShadowPayClient`)

`pay()` runs synchronously through registration, commitment generation and
`authorize`, attaches `.then`/`.catch` handlers to the un-awaited
`generateAndSubmitProof(...)` promise, and returns.  Under the JavaScript
event loop a promise continuation never runs inside the synchronous body
that registered it, so the run of a payment is modelled as the trace of the
synchronous body followed by the deferred continuation. -/

inductive PayEvent where
  | walletChecked
  | registered
  | commitmentsComputed
  | authorized
  | backgroundStarted
  | returnedToCaller
  | settlementSignaled
  | backgroundFailed
  deriving DecidableEq

/-- The events of `pay()`'s synchronous body, in source order: wallet check,
ShadowID auto-registration, commitment/nullifier computation, the awaited
`authorize` call, starting the background proof task, and the `return
result` handing the access credential to the caller. -/
def paySyncEvents : List PayEvent :=
  [.walletChecked, .registered, .commitmentsComputed, .authorized,
   .backgroundStarted, .returnedToCaller]

/-- The deferred continuation of the background proof task: the `.then`
handler signals settlement (callback, history), the `.catch` handler records
failure. -/
def backgroundContinuation (success : Bool) : List PayEvent :=
  if success then [.settlementSignaled] else [.backgroundFailed]

/-- A complete run of `pay()`: the event loop runs the registered
continuation only after the synchronous body has finished. -/
def payRun (success : Bool) : List PayEvent :=
  paySyncEvents ++ backgroundContinuation success

/-! ## A concrete injective hash

`encHash` is a computable injective stand-in used to instantiate the
Poseidon parameter in counterexamples and witnesses (`Nat.pair` is the
standard pairing function). -/

def encHash : List Nat → Nat
  | [] => 0
  | a :: l => Nat.pair a (encHash l) + 1

lemma encHash_injective : ∀ x y : List Nat, encHash x = encHash y → x = y := by
  intro x
  induction x with
  | nil =>
    intro y h
    cases y with
    | nil => rfl
    | cons b l => simp [encHash] at h
  | cons a l ih =>
    intro y h
    cases y with
    | nil => simp [encHash] at h
    | cons b m =>
      simp only [encHash, Nat.add_right_cancel_iff] at h
      obtain ⟨h1, h2⟩ := Nat.pair_eq_pair.mp h
      rw [h1, ih m h2]

/-! ## Helper lemmas about `ensureFieldElement` -/

lemma ensureFieldElement_small {v : Nat} (name : String)
    (h : v < BN254_FIELD_MODULUS) :
    ensureFieldElement (v : Int) name = .ok (v : Int) := by
  unfold ensureFieldElement
  rw [if_neg (by exact_mod_cast Nat.not_le.mpr h),
    if_neg (Int.not_lt.mpr (Int.natCast_nonneg v))]

lemma ensureFieldElement_reduce {v : Nat} (name : String)
    (h : BN254_FIELD_MODULUS ≤ v) :
    ensureFieldElement (v : Int) name = .ok ((v % BN254_FIELD_MODULUS : Nat) : Int) := by
  unfold ensureFieldElement
  rw [if_pos (by exact_mod_cast h)]
  norm_cast

lemma ensureFieldElement_neg {v : Int} (name : String) (h : v < 0) :
    ensureFieldElement v name = .error (name ++ " cannot be negative: " ++ toString v) := by
  unfold ensureFieldElement
  rw [if_neg (by omega), if_pos h]

/-! ## C9 — FieldCodec totality and range -/

lemma addressToFieldElementVal_lt (s : String) :
    addressToFieldElementVal s < BN254_FIELD_MODULUS := by
  unfold addressToFieldElementVal
  exact Nat.mod_lt _ (by unfold BN254_FIELD_MODULUS; omega)

/-- C9: the FieldCodec encoding `addressToFieldElement` is a total function
on arbitrary strings whose numeric output is always strictly below the BN254
scalar-field modulus, including for identifiers longer than the 31-byte
truncation window. -/
theorem addressToFieldElement_lt_modulus (s : String) :
    addressToFieldElementVal s < BN254_FIELD_MODULUS :=
  addressToFieldElementVal_lt s

/-! ## C8 — authorize returns before the background task signals -/

/-- C8: in every run of `pay()` (background settlement succeeding or
failing), the access credential is returned to the caller strictly before
the background proof task signals its completion: the return event precedes
the settlement/failure signal in the orchestrator's trace. -/
theorem authorize_returns_before_settlement :
    (PayEvent.returnedToCaller ∈ payRun true
      ∧ PayEvent.settlementSignaled ∈ payRun true
      ∧ (payRun true).indexOf PayEvent.returnedToCaller
          < (payRun true).indexOf PayEvent.settlementSignaled)
    ∧ (PayEvent.returnedToCaller ∈ payRun false
      ∧ PayEvent.backgroundFailed ∈ payRun false
      ∧ (payRun false).indexOf PayEvent.returnedToCaller
          < (payRun false).indexOf PayEvent.backgroundFailed) := by
  decide

/-! ## C4 — the two identifier encodings diverge -/

/-- C4 is false on the code: at identifier `"1"` the commitment-path
encoding (`addressToFieldElement`) yields the UTF-8 byte value 49 while the
proof-input-path encoding (`pubkeyToFieldElement`) yields the hex-digit
value 1, so the two paths do not produce the same field element. -/
theorem encoder_divergence_cex :
    addressToFieldElementVal "1" = 49
    ∧ pubkeyToFieldElementVal "1" = .ok 1
    ∧ (49 : Nat) ≠ 1 := by
  refine ⟨by decide, by rfl, by decide⟩

/-- C4 amended: the commitment path and the proof-input path use two
divergent encodings — on every single-character identifier that is a nonzero
decimal digit, the commitment path returns the character's byte value while
the proof-input path returns its hex-digit value, and the two always
differ. -/
theorem encoder_divergence_on_digits (c : Char) (h1 : 49 ≤ c.toNat)
    (h2 : c.toNat ≤ 57) :
    addressToFieldElementVal ⟨[c]⟩ = c.toNat
    ∧ pubkeyToFieldElementVal ⟨[c]⟩ = .ok (c.toNat - 48)
    ∧ addressToFieldElementVal ⟨[c]⟩ ≠ c.toNat - 48 := by
  have haddr : addressToFieldElementVal ⟨[c]⟩ = c.toNat := by
    unfold addressToFieldElementVal utf8Bytes
    have hd : (String.mk [c]).data = [c] := rfl
    rw [hd]
    simp only [List.map_cons, List.map_nil, List.flatten]
    unfold utf8BytesChar
    rw [if_pos (by omega)]
    simp only [List.append_nil, List.take, bytesToNumBE, List.foldl]
    have hlt : c.toNat < BN254_FIELD_MODULUS := by
      unfold BN254_FIELD_MODULUS; omega
    simpa using Nat.mod_eq_of_lt hlt
  refine ⟨haddr, ?_, by rw [haddr]; omega⟩
  unfold pubkeyToFieldElementVal
  have hd : (String.mk [c]).data = [c] := rfl
  rw [hd]
  have hpre : ¬([c].take 2 = ['0', 'x']) := by
    intro h
    simp only [List.take] at h
    exact absurd (congrArg List.length h) (by simp)
  rw [if_neg hpre]
  have hparse : parseHexChars? ([c].take 62) = some (c.toNat - 48) := by
    have : [c].take 62 = [c] := rfl
    rw [this]
    unfold parseHexChars?
    rw [if_neg (by simp)]
    unfold parseAux
    have hdig : hexDigitVal? c = some (c.toNat - 48) := by
      unfold hexDigitVal?
      rw [if_pos (by omega)]
    rw [hdig]
    simp [parseAux]
  rw [hparse]
  have hsmall : c.toNat - 48 < BN254_FIELD_MODULUS := by
    unfold BN254_FIELD_MODULUS; omega
  show (ensureFieldElement ((c.toNat - 48 : Nat) : Int) "pubkeyToFieldElement").map Int.toNat
    = Except.ok (c.toNat - 48)
  rw [ensureFieldElement_small _ hsmall]
  rfl

/-- Witness for the amended C4: at the digit `'7'` the commitment path
gives 55 and the proof-input path gives 7. -/
theorem encoder_divergence_on_digits_witness :
    addressToFieldElementVal ⟨['7']⟩ = ('7').toNat
    ∧ pubkeyToFieldElementVal ⟨['7']⟩ = .ok (('7').toNat - 48)
    ∧ addressToFieldElementVal ⟨['7']⟩ ≠ ('7').toNat - 48 :=
  encoder_divergence_on_digits '7' (by decide) (by decide)

/-! ## Small `Except` rewriting lemmas -/

@[simp] lemma exceptBind_ok {α β : Type} (a : α) (f : α → Except String β) :
    (Except.ok a >>= f) = f a := rfl

@[simp] lemma exceptBind_error {α β : Type} (e : String) (f : α → Except String β) :
    ((Except.error e : Except String α) >>= f) = .error e := rfl

@[simp] lemma exceptMap_ok {α β : Type} (f : α → β) (a : α) :
    (Except.ok a : Except String α).map f = .ok (f a) := rfl

@[simp] lemma exceptMap_error {α β : Type} (f : α → β) (e : String) :
    (Except.error e : Except String α).map f = .error e := rfl

/-! ## C3 — out-of-field circuit inputs are silently reduced, not rejected -/

/-- The BN254 scalar-field modulus written as the 64-character hex string a
caller would pass for a commitment field. -/
def pModulusHex : String :=
  "30644e72e131a029b85045b68181585d2833e84879b9709143e1f593f0000001"

/-- A concrete `generateProof` input whose `senderCommitment` denotes
exactly the field modulus `p` (so its value is out of field). -/
def c3Inputs : ProofInputs :=
  { senderCommitment := pModulusHex, senderSecret := "01",
    receiverCommitment := "01", amount := 1, tokenMint := "SOL", salt := "01",
    merklePath := [], pathIndices := [], encryptedC1 := "01",
    encryptedC2 := "01", elgamalRandomness := "00", shadowidRoot := "01",
    maxAmount := 2, receiverElGamalPubkey := "01" }

/-- C3 is false on the code: `c3Inputs.senderCommitment` has numeric value
`p ≥ p`, yet proof-input assembly raises no error — the value is silently
reduced modulo `p` and `"0"` is placed in the input vector. -/
theorem assemble_silent_modulo_cex :
    hexToBigInt? c3Inputs.senderCommitment = .ok BN254_FIELD_MODULUS
    ∧ (assembleCircuitInputs c3Inputs).map (fun c => c.sender_commitment) = .ok "0" := by
  exact ⟨rfl, rfl⟩

lemma ensureFieldStr_ok (name : String) {hexstr : String} {v : Nat}
    (hv : hexToBigInt? hexstr = .ok v) :
    ensureFieldStr hexstr name = .ok (decString (v % BN254_FIELD_MODULUS)) := by
  unfold ensureFieldStr
  rw [hv, exceptBind_ok]
  rcases Nat.lt_or_ge v BN254_FIELD_MODULUS with h | h
  · rw [ensureFieldElement_small name h, exceptBind_ok, Nat.mod_eq_of_lt h]
    rfl
  · rw [ensureFieldElement_reduce name h, exceptBind_ok]
    rfl

lemma ensureFieldElement_mod (a : Nat) (name : String) :
    ensureFieldElement ((a : Nat) : Int) name
      = .ok (((a % BN254_FIELD_MODULUS : Nat)) : Int) := by
  rcases Nat.lt_or_ge a BN254_FIELD_MODULUS with h | h
  · rw [ensureFieldElement_small name h, Nat.mod_eq_of_lt h]
  · exact ensureFieldElement_reduce name h

lemma jsBigInt_decString (v : Nat) : jsBigInt? (decString v) = some v := by
  have hne : (decString v).data ≠ [] := digitsBase_ne_nil (Nat.lt_succ_self v)
  have hchars := @decString_chars v
  unfold jsBigInt?
  rw [if_neg hne]
  have hpref : ¬((decString v).data.take 2 = ['0', 'x']) := by
    intro h
    have hx : 'x' ∈ (decString v).data.take 2 := by rw [h]; simp
    have := hchars 'x' (List.mem_of_mem_take hx)
    have hxv : ('x').toNat = 120 := rfl
    omega
  rw [if_neg hpref, parseDecChars_decString]

lemma circuitFieldCheck_ok (key : String) {v : Nat} (h : v < BN254_FIELD_MODULUS) :
    circuitFieldCheck key (decString v) = .ok () := by
  unfold circuitFieldCheck
  rw [jsBigInt_decString]
  show (if BN254_FIELD_MODULUS ≤ v then
      Except.error ("Circuit input \"" ++ key ++ "\" exceeds BN254 field modulus")
    else Except.ok ()) = Except.ok ()
  rw [if_neg (Nat.not_le.mpr h)]

lemma circuitFieldCheck_err (key : String) {v : Nat} (h : BN254_FIELD_MODULUS ≤ v) :
    circuitFieldCheck key (decString v)
      = .error ("Circuit input \"" ++ key ++ "\" exceeds BN254 field modulus") := by
  unfold circuitFieldCheck
  rw [jsBigInt_decString]
  show (if BN254_FIELD_MODULUS ≤ v then
      Except.error ("Circuit input \"" ++ key ++ "\" exceeds BN254 field modulus")
    else Except.ok ())
    = Except.error ("Circuit input \"" ++ key ++ "\" exceeds BN254 field modulus")
  rw [if_pos h]

/-- C3 amended: the numeric circuit inputs routed through
`ensureFieldElement` are not rejected when `v ≥ p` — each is silently
reduced modulo `p` (the source emits only a console warning) before being
placed in the input vector, and a typed error naming the field is raised
for negative values; only the `token_mint` field bypasses
`ensureFieldElement` and reaches the final per-entry check unreduced, where
an out-of-field value is rejected with the typed error
`Circuit input "token_mint" exceeds BN254 field modulus`. -/
theorem assembly_silent_reduce_and_token_check (v : Nat) (hexstr name : String)
    (hv : hexToBigInt? hexstr = .ok v) (hge : BN254_FIELD_MODULUS ≤ v)
    (inputs : ProofInputs) (v1 v2 v3 v4 v5 v6 v7 v8 v9 a m t : Nat)
    (hTns : ¬(inputs.tokenMint = "SOL" ∨ inputs.tokenMint = "0"))
    (hThex : inputs.tokenMint.data.take 2 = ['0', 'x']
      ∨ inputs.tokenMint.data.any isHexLetterChar)
    (hTparse : hexToBigInt? inputs.tokenMint = .ok t)
    (hTge : BN254_FIELD_MODULUS ≤ t)
    (h1 : hexToBigInt? inputs.senderCommitment = .ok v1)
    (h2 : hexToBigInt? inputs.senderSecret = .ok v2)
    (h3 : hexToBigInt? inputs.receiverCommitment = .ok v3)
    (hA : inputs.amount = ((a : Nat) : Int))
    (h4 : hexToBigInt? inputs.salt = .ok v4)
    (h5 : hexToBigInt? inputs.encryptedC1 = .ok v5)
    (h6 : hexToBigInt? inputs.encryptedC2 = .ok v6)
    (h7 : hexToBigInt? inputs.elgamalRandomness = .ok v7)
    (h8 : hexToBigInt? inputs.shadowidRoot = .ok v8)
    (hM : inputs.maxAmount = ((m : Nat) : Int))
    (h9 : hexToBigInt? inputs.receiverElGamalPubkey = .ok v9) :
    ensureFieldElement (v : Int) name = .ok ((v % BN254_FIELD_MODULUS : Nat) : Int)
    ∧ ensureFieldStr hexstr name = .ok (decString (v % BN254_FIELD_MODULUS))
    ∧ (∀ (w : Int) nm, w < 0 →
        ensureFieldElement w nm = .error (nm ++ " cannot be negative: " ++ toString w))
    ∧ assembleCircuitInputs inputs
        = .error ("Circuit input \"token_mint\" exceeds BN254 field modulus") := by
  have hp : 0 < BN254_FIELD_MODULUS := by unfold BN254_FIELD_MODULUS; omega
  refine ⟨ensureFieldElement_reduce name hge, ensureFieldStr_ok name hv,
    fun w nm hw => ensureFieldElement_neg nm hw, ?_⟩
  simp only [assembleCircuitInputs]
  rw [if_neg hTns, if_pos hThex, hTparse, exceptMap_ok, exceptBind_ok]
  rw [ensureFieldStr_ok "sender_commitment" h1, exceptBind_ok]
  rw [ensureFieldStr_ok "sender_secret" h2, exceptBind_ok]
  rw [ensureFieldStr_ok "receiver_commitment" h3, exceptBind_ok]
  rw [hA, ensureFieldElement_mod a "amount", exceptMap_ok, exceptBind_ok]
  rw [ensureFieldStr_ok "salt" h4, exceptBind_ok]
  rw [ensureFieldStr_ok "encrypted_amount_c1" h5, exceptBind_ok]
  rw [ensureFieldStr_ok "encrypted_amount_c2" h6, exceptBind_ok]
  rw [ensureFieldStr_ok "elgamal_randomness" h7, exceptBind_ok]
  rw [ensureFieldStr_ok "shadowid_root" h8, exceptBind_ok]
  rw [hM, ensureFieldElement_mod m "max_amount", exceptMap_ok, exceptBind_ok]
  rw [ensureFieldStr_ok "receiver_elgamal_pubkey" h9, exceptBind_ok]
  simp only [Int.toNat_natCast]
  rw [circuitFieldCheck_ok "sender_commitment" (Nat.mod_lt v1 hp), exceptBind_ok]
  rw [circuitFieldCheck_ok "sender_secret" (Nat.mod_lt v2 hp), exceptBind_ok]
  rw [circuitFieldCheck_ok "receiver_commitment" (Nat.mod_lt v3 hp), exceptBind_ok]
  rw [circuitFieldCheck_ok "amount" (Nat.mod_lt a hp), exceptBind_ok]
  rw [circuitFieldCheck_err "token_mint" hTge, exceptBind_error]
  rfl

/-- A concrete `generateProof` input whose token mint denotes exactly the
field modulus: it bypasses `ensureFieldElement` and is rejected by the
final check. -/
def c3TokenInputs : ProofInputs :=
  { senderCommitment := pModulusHex, senderSecret := "01",
    receiverCommitment := "01", amount := 1, tokenMint := pModulusHex,
    salt := "01", merklePath := [], pathIndices := [], encryptedC1 := "01",
    encryptedC2 := "01", elgamalRandomness := "00", shadowidRoot := "01",
    maxAmount := 2, receiverElGamalPubkey := "01" }

/-- Witness for the amended C3: the field modulus itself, passed as
`senderCommitment`, is reduced to `0` with no error raised, while the same
value passed as `tokenMint` is rejected by the final check with the typed
`token_mint` error. -/
theorem assembly_silent_reduce_and_token_check_witness :
    hexToBigInt? pModulusHex = .ok BN254_FIELD_MODULUS
    ∧ ensureFieldStr pModulusHex "sender_commitment"
        = .ok (decString (BN254_FIELD_MODULUS % BN254_FIELD_MODULUS))
    ∧ assembleCircuitInputs c3TokenInputs
        = .error ("Circuit input \"token_mint\" exceeds BN254 field modulus") :=
  ⟨rfl,
    (assembly_silent_reduce_and_token_check BN254_FIELD_MODULUS pModulusHex
      "sender_commitment" rfl (le_refl _) c3TokenInputs
      BN254_FIELD_MODULUS 1 1 1 1 1 0 1 1 1 2 BN254_FIELD_MODULUS
      (by decide) (Or.inr (by decide)) rfl (le_refl _)
      rfl rfl rfl rfl rfl rfl rfl rfl rfl rfl rfl).2.1,
    (assembly_silent_reduce_and_token_check BN254_FIELD_MODULUS pModulusHex
      "sender_commitment" rfl (le_refl _) c3TokenInputs
      BN254_FIELD_MODULUS 1 1 1 1 1 0 1 1 1 2 BN254_FIELD_MODULUS
      (by decide) (Or.inr (by decide)) rfl (le_refl _)
      rfl rfl rfl rfl rfl rfl rfl rfl rfl rfl rfl).2.2.2⟩

/-! ## C5 — the Commitment Engine does not fail fast on out-of-field values -/

/-- A 32-character recipient whose `stringToBigInt` encoding exceeds the
field modulus. -/
def longRecipient : String := "zzzzzzzzzzzzzzzzzzzzzzzzzzzzzzzz"

/-- C5 is false on the code: this recipient encodes to a value at or above
`p`, yet `generateCommitment` raises no error — the unreduced out-of-field
value is placed directly in the argument list handed to the hash
primitive. -/
theorem commitment_engine_no_range_check_cex :
    BN254_FIELD_MODULUS ≤ stringToBigInt longRecipient
    ∧ generateCommitmentInputs 1 longRecipient "SOL" "01"
        = .ok [1, stringToBigInt longRecipient, 5459788, 1]
    ∧ (generateCommitment encHash 1 longRecipient "SOL" (some "01") "ff").map
        (fun c => c.recipient) = .ok longRecipient := by
  exact ⟨by decide, rfl, rfl⟩

/-- C5 amended: the Commitment Engine performs no field-range validation at
all — `generateCommitment` passes amount, the unreduced `stringToBigInt`
encodings of recipient and token, and the nonce to `H` exactly as computed,
and `computePaymentCommitment` passes sender, receiver, amount and salt
unchecked, reducing only the token encoding modulo `p` (inside
`addressToFieldElement`) instead of rejecting it. -/
theorem commitment_engine_passes_unreduced
    (amount : Nat) (recipient token nonceValue : String) (nv : Nat)
    (senderCommitment receiverCommitment tokenMint salt : String)
    (scv rcv saltv : Nat)
    (hn : parseHexChars? nonceValue.data = some nv)
    (hsc : toBigInt? senderCommitment = .ok scv)
    (hrc : toBigInt? receiverCommitment = .ok rcv)
    (hsalt : toBigInt? salt = .ok saltv) :
    generateCommitmentInputs amount recipient token nonceValue
      = .ok [amount, stringToBigInt recipient, stringToBigInt token, nv]
    ∧ computePaymentCommitmentInputs senderCommitment receiverCommitment amount
        tokenMint salt
      = .ok [scv, rcv, amount, addressToFieldElementVal tokenMint, saltv]
    ∧ addressToFieldElementVal tokenMint < BN254_FIELD_MODULUS := by
  refine ⟨?_, ?_, addressToFieldElementVal_lt tokenMint⟩
  · unfold generateCommitmentInputs
    rw [hn]
  · simp only [computePaymentCommitmentInputs, addressToFieldElement]
    rw [hsc, exceptBind_ok, hrc, exceptBind_ok, toBigInt_decString, exceptBind_ok,
      hsalt, exceptBind_ok]
    rfl

/-- Witness for the amended C5 at concrete inputs. -/
theorem commitment_engine_passes_unreduced_witness :
    parseHexChars? ("0a" : String).data = some 10
    ∧ generateCommitmentInputs 7 "r" "t" "0a"
        = .ok [7, stringToBigInt "r", stringToBigInt "t", 10]
    ∧ computePaymentCommitmentInputs "15" "0x10" 7 "SOL" "1f"
        = .ok [15, 16, 7, addressToFieldElementVal "SOL", 31] :=
  ⟨rfl,
    (commitment_engine_passes_unreduced 7 "r" "t" "0a" 10 "15" "0x10" "SOL" "1f"
      15 16 31 rfl rfl rfl rfl).1,
    (commitment_engine_passes_unreduced 7 "r" "t" "0a" 10 "15" "0x10" "SOL" "1f"
      15 16 31 rfl rfl rfl rfl).2.1⟩

/-! ## C6 — the three specified hash derivations -/

/-- C6: the Commitment Engine computes exactly the three specified
derivations — `computeSenderCommitment` renders
`H(encode(walletAddress), secret)`, `computePaymentCommitment` renders
`H(senderCommitment, receiverCommitment, amount, encode(token), salt)`, and
`computePaymentNullifier` renders `H(secret, paymentCommitment)`, where `H`
is the trusted Poseidon primitive and `encode` the FieldCodec (hex/decimal
input strings denoting the respective numeric values). -/
theorem commitment_engine_derivations (H : List Nat → Nat)
    (wallet secret senderCommitment receiverCommitment tokenMint salt
      senderSecret paymentCommitment : String)
    (amount sv scv rcv saltv secv pcv : Nat)
    (hs : toBigInt? secret = .ok sv)
    (hsc : toBigInt? senderCommitment = .ok scv)
    (hrc : toBigInt? receiverCommitment = .ok rcv)
    (hsalt : toBigInt? salt = .ok saltv)
    (hsec : toBigInt? senderSecret = .ok secv)
    (hpc : toBigInt? paymentCommitment = .ok pcv) :
    computeSenderCommitment H wallet secret
      = .ok (decString (senderCommitmentSpec H wallet sv))
    ∧ computePaymentCommitment H senderCommitment receiverCommitment amount
        tokenMint salt
      = .ok (decString (paymentCommitmentSpec H scv rcv amount tokenMint saltv))
    ∧ computePaymentNullifier H senderSecret paymentCommitment
      = .ok (decString (paymentNullifierSpec H secv pcv)) := by
  refine ⟨?_, ?_, ?_⟩
  · unfold computeSenderCommitment computeSenderCommitmentInputs
    simp only [addressToFieldElement]
    rw [toBigInt_decString, exceptBind_ok, hs, exceptBind_ok]
    rfl
  · unfold computePaymentCommitment
    simp only [computePaymentCommitmentInputs, addressToFieldElement]
    rw [hsc, exceptBind_ok, hrc, exceptBind_ok, toBigInt_decString, exceptBind_ok,
      hsalt, exceptBind_ok]
    rfl
  · unfold computePaymentNullifier computePaymentNullifierInputs
    rw [hsec, exceptBind_ok, hpc, exceptBind_ok]
    rfl

/-- Witness for C6 with a concrete hash parameter and concrete inputs. -/
theorem commitment_engine_derivations_witness :
    toBigInt? "0x2a" = .ok 42
    ∧ computeSenderCommitment encHash "wallet" "0x2a"
        = .ok (decString (senderCommitmentSpec encHash "wallet" 42)) :=
  ⟨rfl,
    (commitment_engine_derivations encHash "wallet" "0x2a" "15" "0x10" "SOL" "1f"
      "0x2a" "15" 7 42 15 16 31 42 15 rfl rfl rfl rfl rfl rfl).1⟩

/-! ## Characterisations of commitment generation and verification -/

lemma nonceOr_some {s rnd : String} (h : s ≠ "") : nonceOr (some s) rnd = s := by
  simp [nonceOr, h]

lemma generateCommitmentInputs_eq {amount : Nat} {recipient token nonceValue : String}
    {nv : Nat} (h : parseHexChars? nonceValue.data = some nv) :
    generateCommitmentInputs amount recipient token nonceValue
      = .ok [amount, stringToBigInt recipient, stringToBigInt token, nv] := by
  unfold generateCommitmentInputs
  rw [h]

lemma generateCommitment_eq (H : List Nat → Nat) {amount : Nat}
    {recipient token : String} {nonce : Option String} {rnd : String} {l : List Nat}
    (h : generateCommitmentInputs amount recipient token (nonceOr nonce rnd) = .ok l) :
    generateCommitment H amount recipient token nonce rnd
      = .ok { value := toHexString (H l), amount := amount, recipient := recipient,
              token := token, nonce := nonceOr nonce rnd } := by
  simp only [generateCommitment]
  rw [h]
  rfl

lemma verifyCommitment_eq (H : List Nat → Nat) {commitment : String} {amount : Nat}
    {recipient token nonce rnd : String} {l : List Nat}
    (h : generateCommitmentInputs amount recipient token (nonceOr (some nonce) rnd) = .ok l) :
    verifyCommitment H commitment amount recipient token nonce rnd
      = .ok (decide (toHexString (H l) = commitment)) := by
  unfold verifyCommitment
  rw [generateCommitment_eq H h]
  rfl

lemma generateNullifier_eq (H : List Nat → Nat) {privateKey commitment : String}
    {paymentIndex : Nat} {l : List Nat}
    (h : generateNullifierInputs privateKey commitment paymentIndex = .ok l) :
    generateNullifier H privateKey commitment paymentIndex
      = .ok { value := toHexString (H l), userSecret := privateKey,
              commitment := commitment, index := paymentIndex } := by
  unfold generateNullifier
  rw [h]
  rfl

lemma verifyNullifier_eq (H : List Nat → Nat) {nullifier privateKey commitment : String}
    {paymentIndex : Nat} {l : List Nat}
    (h : generateNullifierInputs privateKey commitment paymentIndex = .ok l) :
    verifyNullifier H nullifier privateKey commitment paymentIndex
      = .ok (decide (toHexString (H l) = nullifier)) := by
  unfold verifyNullifier
  rw [generateNullifier_eq H h]
  rfl

/-! ## C10 — verification is exact string equality with the canonical rendering -/

/-- C10: `verifyCommitment` and `verifyNullifier` accept exactly the
lowercase, unpadded, unprefixed hexadecimal rendering of the recomputed
hash: a candidate verifies iff it is literally that string; every character
of the rendering is a decimal digit or lowercase `a`–`f` (so `0x`-prefixed
or uppercase variants never match), and the rendering has a leading zero
only as the single-character string `"0"` (so zero-padded variants never
match); any other rendering of the same number — decimal included — is
rejected. -/
theorem verify_exact_canonical_rendering (H : List Nat → Nat)
    (amount : Nat) (recipient token nonce rnd candidate : String) (l : List Nat)
    (privateKey commitment2 candidate2 : String) (paymentIndex : Nat) (nl : List Nat)
    (hgen : generateCommitmentInputs amount recipient token (nonceOr (some nonce) rnd)
      = .ok l)
    (hnul : generateNullifierInputs privateKey commitment2 paymentIndex = .ok nl) :
    (verifyCommitment H candidate amount recipient token nonce rnd = .ok true
      ↔ candidate = toHexString (H l))
    ∧ (verifyNullifier H candidate2 privateKey commitment2 paymentIndex = .ok true
      ↔ candidate2 = toHexString (H nl))
    ∧ (∀ c ∈ (toHexString (H l)).data,
        (48 ≤ c.toNat ∧ c.toNat ≤ 57) ∨ (97 ≤ c.toNat ∧ c.toNat ≤ 102))
    ∧ (∀ t, (toHexString (H l)).data = '0' :: t → H l = 0 ∧ t = []) := by
  refine ⟨?_, ?_, toHexString_chars, ?_⟩
  · rw [verifyCommitment_eq H hgen]
    constructor
    · intro h
      have h' : decide (toHexString (H l) = candidate) = true := by
        injection h
      exact (decide_eq_true_eq.mp h').symm
    · intro h
      rw [h]
      simp
  · rw [verifyNullifier_eq H hnul]
    constructor
    · intro h
      have h' : decide (toHexString (H nl) = candidate2) = true := by
        injection h
      exact (decide_eq_true_eq.mp h').symm
    · intro h
      rw [h]
      simp
  · intro t ht
    exact digitsBase_eq_zero_cons (by norm_num) (by norm_num) _ _ t
      (Nat.lt_succ_self _) ht

/-- Witness for C10: with a concrete hash, the canonical rendering verifies
(commitment and nullifier), and its characters are plain lowercase hex. -/
theorem verify_exact_canonical_rendering_witness :
    verifyCommitment encHash (toHexString (encHash [3, 97, 98, 15])) 3 "a" "b" "0f" "aa"
      = .ok true
    ∧ verifyNullifier encHash (toHexString (encHash [15, 16, 2])) "0f" "10" 2
      = .ok true :=
  ⟨(verify_exact_canonical_rendering encHash 3 "a" "b" "0f" "aa"
      (toHexString (encHash [3, 97, 98, 15])) [3, 97, 98, 15] "0f" "10"
      (toHexString (encHash [15, 16, 2])) 2 [15, 16, 2] rfl rfl).1.mpr rfl,
    (verify_exact_canonical_rendering encHash 3 "a" "b" "0f" "aa"
      (toHexString (encHash [3, 97, 98, 15])) [3, 97, 98, 15] "0f" "10"
      (toHexString (encHash [15, 16, 2])) 2 [15, 16, 2] rfl rfl).2.1.mpr rfl⟩

/-! ## C7 — commitment round trip, and where the flip property fails -/

/-- C7 is false on the code: changing the recipient from `"a"` to the
distinct string `"\x00a"` does not flip verification to `false`, because
`stringToBigInt` packs both to the same integer 97 — the commitment opens
for a recipient other than the one it was generated for (with a concrete
injective hash standing in for Poseidon). -/
theorem verify_commitment_collision_cex :
    ("a" : String) ≠ "\x00a"
    ∧ stringToBigInt "a" = stringToBigInt "\x00a"
    ∧ ((generateCommitment encHash 5 "a" "SOL" (some "ab") "00").bind fun com =>
        verifyCommitment encHash com.value 5 "\x00a" "SOL" "ab" "00") = .ok true := by
  exact ⟨by decide, rfl, rfl⟩

/-- C7 amended: `verifyCommitment(generateCommitment(a,b,c,salt).value,
a,b,c,salt)` is always `true` (for a non-empty valid-hex salt); changing a
single input flips the result to `false` whenever the hash is collision-free
and the changed input's *encoded* value differs — a changed amount always
flips, while changed recipient/token/salt strings flip exactly when their
`stringToBigInt`/hex encodings differ (the encoding is not injective, see
the counterexample). -/
theorem verify_commitment_roundtrip_and_flip (H : List Nat → Nat)
    (hInj : ∀ x y, H x = H y → x = y)
    (amount : Nat) (recipient token nonce rnd rnd2 : String) (nv : Nat)
    (hne : nonce ≠ "") (hnv : parseHexChars? nonce.data = some nv) :
    generateCommitment H amount recipient token (some nonce) rnd
      = .ok { value := toHexString (H [amount, stringToBigInt recipient,
                stringToBigInt token, nv]),
              amount := amount, recipient := recipient, token := token,
              nonce := nonce }
    ∧ verifyCommitment H
        (toHexString (H [amount, stringToBigInt recipient, stringToBigInt token, nv]))
        amount recipient token nonce rnd2 = .ok true
    ∧ (∀ amount2, amount2 ≠ amount → verifyCommitment H
        (toHexString (H [amount, stringToBigInt recipient, stringToBigInt token, nv]))
        amount2 recipient token nonce rnd2 = .ok false)
    ∧ (∀ recipient2, stringToBigInt recipient2 ≠ stringToBigInt recipient →
        verifyCommitment H
        (toHexString (H [amount, stringToBigInt recipient, stringToBigInt token, nv]))
        amount recipient2 token nonce rnd2 = .ok false)
    ∧ (∀ token2, stringToBigInt token2 ≠ stringToBigInt token →
        verifyCommitment H
        (toHexString (H [amount, stringToBigInt recipient, stringToBigInt token, nv]))
        amount recipient token2 nonce rnd2 = .ok false)
    ∧ (∀ nonce2 nv2, nonce2 ≠ "" → parseHexChars? nonce2.data = some nv2 →
        nv2 ≠ nv → verifyCommitment H
        (toHexString (H [amount, stringToBigInt recipient, stringToBigInt token, nv]))
        amount recipient token nonce2 rnd2 = .ok false) := by
  have hbase : generateCommitmentInputs amount recipient token (nonceOr (some nonce) rnd)
      = .ok [amount, stringToBigInt recipient, stringToBigInt token, nv] := by
    rw [nonceOr_some hne]
    exact generateCommitmentInputs_eq hnv
  have hbase2 : generateCommitmentInputs amount recipient token (nonceOr (some nonce) rnd2)
      = .ok [amount, stringToBigInt recipient, stringToBigInt token, nv] := by
    rw [nonceOr_some hne]
    exact generateCommitmentInputs_eq hnv
  refine ⟨?_, ?_, ?_, ?_, ?_, ?_⟩
  · rw [generateCommitment_eq H hbase, nonceOr_some hne]
  · rw [verifyCommitment_eq H hbase2]
    simp
  · intro amount2 hne2
    have h2 : generateCommitmentInputs amount2 recipient token (nonceOr (some nonce) rnd2)
        = .ok [amount2, stringToBigInt recipient, stringToBigInt token, nv] := by
      rw [nonceOr_some hne]
      exact generateCommitmentInputs_eq hnv
    rw [verifyCommitment_eq H h2]
    have : toHexString (H [amount2, stringToBigInt recipient, stringToBigInt token, nv])
        ≠ toHexString (H [amount, stringToBigInt recipient, stringToBigInt token, nv]) := by
      intro h
      have := hInj _ _ (toHexString_injective h)
      simp only [List.cons.injEq] at this
      exact hne2 this.1
    simp [this]
  · intro recipient2 hne2
    have h2 : generateCommitmentInputs amount recipient2 token (nonceOr (some nonce) rnd2)
        = .ok [amount, stringToBigInt recipient2, stringToBigInt token, nv] := by
      rw [nonceOr_some hne]
      exact generateCommitmentInputs_eq hnv
    rw [verifyCommitment_eq H h2]
    have : toHexString (H [amount, stringToBigInt recipient2, stringToBigInt token, nv])
        ≠ toHexString (H [amount, stringToBigInt recipient, stringToBigInt token, nv]) := by
      intro h
      have := hInj _ _ (toHexString_injective h)
      simp only [List.cons.injEq] at this
      exact hne2 this.2.1
    simp [this]
  · intro token2 hne2
    have h2 : generateCommitmentInputs amount recipient token2 (nonceOr (some nonce) rnd2)
        = .ok [amount, stringToBigInt recipient, stringToBigInt token2, nv] := by
      rw [nonceOr_some hne]
      exact generateCommitmentInputs_eq hnv
    rw [verifyCommitment_eq H h2]
    have : toHexString (H [amount, stringToBigInt recipient, stringToBigInt token2, nv])
        ≠ toHexString (H [amount, stringToBigInt recipient, stringToBigInt token, nv]) := by
      intro h
      have := hInj _ _ (toHexString_injective h)
      simp only [List.cons.injEq] at this
      exact hne2 this.2.2.1
    simp [this]
  · intro nonce2 nv2 hne2 hnv2 hnvne
    have h2 : generateCommitmentInputs amount recipient token (nonceOr (some nonce2) rnd2)
        = .ok [amount, stringToBigInt recipient, stringToBigInt token, nv2] := by
      rw [nonceOr_some hne2]
      exact generateCommitmentInputs_eq hnv2
    rw [verifyCommitment_eq H h2]
    have : toHexString (H [amount, stringToBigInt recipient, stringToBigInt token, nv2])
        ≠ toHexString (H [amount, stringToBigInt recipient, stringToBigInt token, nv]) := by
      intro h
      have := hInj _ _ (toHexString_injective h)
      simp only [List.cons.injEq] at this
      exact hnvne this.2.2.2.1
    simp [this]

/-- Witness for the amended C7: concrete round trip verifies, and a changed
amount flips verification to `false`, under the concrete injective hash. -/
theorem verify_commitment_roundtrip_and_flip_witness :
    ("0a" : String) ≠ ""
    ∧ verifyCommitment encHash
        (toHexString (encHash [5, stringToBigInt "a", stringToBigInt "b", 10]))
        5 "a" "b" "0a" "ee" = .ok true
    ∧ verifyCommitment encHash
        (toHexString (encHash [5, stringToBigInt "a", stringToBigInt "b", 10]))
        6 "a" "b" "0a" "ee" = .ok false :=
  ⟨by decide,
    (verify_commitment_roundtrip_and_flip encHash encHash_injective 5 "a" "b"
      "0a" "ff" "ee" 10 (by decide) rfl).2.1,
    (verify_commitment_roundtrip_and_flip encHash encHash_injective 5 "a" "b"
      "0a" "ff" "ee" 10 (by decide) rfl).2.2.1 6 (by decide)⟩

/-! ## C1 / C2 — ElGamal decryption: round trip and range error -/

lemma recoverLoop_ok {P : Type} [AddCommGroup P] [DecidableEq P] (G pt : P)
    (a : Nat) :
    ∀ fuel i, i ≤ a → a < i + fuel →
      (∀ j, i ≤ j → j < a → j • G ≠ pt) → a • G = pt →
      recoverLoop G pt i fuel = .ok a := by
  intro fuel
  induction fuel with
  | zero => intro i h1 h2 _ _; omega
  | succ f ih =>
    intro i h1 h2 hfirst heq
    show (if i • G = pt then Except.ok i else recoverLoop G pt (i + 1) f) = .ok a
    by_cases h : i • G = pt
    · rw [if_pos h]
      rcases Nat.lt_or_ge i a with hlt | _
      · exact absurd h (hfirst i le_rfl hlt)
      · have : i = a := by omega
        rw [this]
    · rw [if_neg h]
      have hia : i ≠ a := fun he => h (he ▸ heq)
      exact ih (i + 1) (by omega) (by omega)
        (fun j hj1 hj2 => hfirst j (by omega) hj2) heq

lemma recoverLoop_err {P : Type} [AddCommGroup P] [DecidableEq P] (G pt : P) :
    ∀ fuel i, (∀ j, i ≤ j → j < i + fuel → j • G ≠ pt) →
      recoverLoop G pt i fuel = .error elgamalRangeErrMsg := by
  intro fuel
  induction fuel with
  | zero => intro i _; rfl
  | succ f ih =>
    intro i hnone
    show (if i • G = pt then Except.ok i else recoverLoop G pt (i + 1) f)
      = .error elgamalRangeErrMsg
    rw [if_neg (hnone i le_rfl (by omega))]
    exact ih (i + 1) (fun j hj1 hj2 => hnone j (by omega) (by omega))

/-- The decrypted point `C2 − sk·C1` of a ciphertext produced for the
matching public key is exactly `amount·G`. -/
lemma decrypt_point {P : Type} [AddCommGroup P] (G : P) (amount skRaw rRaw : Nat) :
    (encryptAmount G amount (elgamalKeypairPub G skRaw) rRaw).c2
      - elgamalPrivate skRaw • (encryptAmount G amount (elgamalKeypairPub G skRaw) rRaw).c1
      = amount • G := by
  simp only [encryptAmount, elgamalKeypairPub]
  rw [smul_comm (rRaw % curveN) (elgamalPrivate skRaw) G]
  exact add_sub_cancel_right _ _

/-- C1: for every amount up to `MAX_SEARCH_AMOUNT`, every keypair produced
by `generateElGamalKeypair` (an arbitrary raw 32-byte draw) and every
ephemeral randomness draw, decryption of the encryption returns exactly the
amount.  The hypothesis `hinj` is the (true) property of BN254's G1 that
distinct scalars below the search bound give distinct multiples of the
generator. -/
theorem decrypt_encrypt_roundtrip {P : Type} [AddCommGroup P] [DecidableEq P]
    (G : P) (amount skRaw rRaw : Nat)
    (hamount : amount ≤ MAX_SEARCH_AMOUNT)
    (hinj : ∀ i j, i ≤ MAX_SEARCH_AMOUNT → j ≤ MAX_SEARCH_AMOUNT →
      (i • G : P) = j • G → i = j) :
    decryptAmount G (encryptAmount G amount (elgamalKeypairPub G skRaw) rRaw)
      (elgamalPrivate skRaw) = .ok amount := by
  unfold decryptAmount
  rw [decrypt_point G amount skRaw rRaw]
  unfold recoverAmountFromPoint
  by_cases h0 : amount = 0
  · rw [h0]
    rw [if_pos (zero_nsmul G)]
  · have hne : ¬(amount • G = (0 : P)) := by
      intro h
      exact h0 (hinj amount 0 hamount (by omega) (by rw [h, zero_nsmul]))
    rw [if_neg hne]
    exact recoverLoop_ok G (amount • G) amount MAX_SEARCH_AMOUNT 1 (by omega)
      (by unfold MAX_SEARCH_AMOUNT at *; omega)
      (fun j hj1 hj2 hj => by
        have := hinj j amount (by omega) hamount hj
        omega)
      rfl

/-- Witness for C1 at the integers (`G = 1`, where `i • 1 = i` makes the
injectivity hypothesis provable): amount 10000 decrypts back to 10000. -/
theorem decrypt_encrypt_roundtrip_witness :
    (10000 ≤ MAX_SEARCH_AMOUNT)
    ∧ decryptAmount (1 : ℤ)
        (encryptAmount (1 : ℤ) 10000 (elgamalKeypairPub (1 : ℤ) 7) 5)
        (elgamalPrivate 7) = .ok 10000 :=
  ⟨by decide,
    decrypt_encrypt_roundtrip (1 : ℤ) 10000 7 5 (by decide)
      (fun i j _ _ h => by
        have h' : (i : ℤ) = (j : ℤ) := by simpa using h
        exact_mod_cast h')⟩

/-- C2: for every amount strictly above `MAX_SEARCH_AMOUNT` (and below the
point where scalars start colliding, per `hinj`), decryption never returns a
value: it fails with exactly the dedicated amount-recovery error message. -/
theorem decrypt_out_of_range_error {P : Type} [AddCommGroup P] [DecidableEq P]
    (G : P) (amount skRaw rRaw : Nat)
    (hamount : MAX_SEARCH_AMOUNT < amount)
    (hinj : ∀ i j, i ≤ amount → j ≤ amount → (i • G : P) = j • G → i = j) :
    decryptAmount G (encryptAmount G amount (elgamalKeypairPub G skRaw) rRaw)
      (elgamalPrivate skRaw) = .error elgamalRangeErrMsg := by
  unfold decryptAmount
  rw [decrypt_point G amount skRaw rRaw]
  unfold recoverAmountFromPoint
  have hne : ¬(amount • G = (0 : P)) := by
    intro h
    have : amount = 0 := hinj amount 0 le_rfl (by omega) (by rw [h, zero_nsmul])
    omega
  rw [if_neg hne]
  exact recoverLoop_err G (amount • G) MAX_SEARCH_AMOUNT 1
    (fun j hj1 hj2 hj => by
      have := hinj j amount (by omega) le_rfl hj
      omega)

/-- Witness for C2 at the integers: amount 10000001 yields the dedicated
range error. -/
theorem decrypt_out_of_range_error_witness :
    (MAX_SEARCH_AMOUNT < 10000001)
    ∧ decryptAmount (1 : ℤ)
        (encryptAmount (1 : ℤ) 10000001 (elgamalKeypairPub (1 : ℤ) 3) 4)
        (elgamalPrivate 3) = .error elgamalRangeErrMsg :=
  ⟨by decide,
    decrypt_out_of_range_error (1 : ℤ) 10000001 3 4 (by decide)
      (fun i j _ _ h => by
        have h' : (i : ℤ) = (j : ℤ) := by simpa using h
        exact_mod_cast h')⟩

end ShadowPay
